import Mathlib

/-!
Verification development for the mosaic relayer node (rust-mosaic).

The Rust sources are shallowly embedded: machine integers become `Nat`
(with explicit `% 2 ^ w` where the source truncates), byte buffers become
`List Nat`, fallible functions return `Except`, and Rust functions that can
panic return an `Outcome` with an explicit `panicked` constructor.  The
asynchronous future chains of the observer and the block reporter are
embedded as pure functions from the outcome of the remote calls to the
trace of operations they issue.

Third-party library behaviour the sources rely on (the parity `rlp` crate,
`ethabi` decoding of a single `FixedBytes(32)` parameter, `tiny_keccak`
Keccak-256, the `web3` `U128::low_u64` accessor) is embedded explicitly and
is marked as such in the doc comments.
-/

set_option maxRecDepth 100000

namespace Mosaic

/-! ## Byte-string helpers -/

/-- Fuel-based helper for `minBE`; the fuel is always at least the number
being converted, so the recursion never runs out. -/
def minBEAux : Nat → Nat → List Nat
  | 0, _ => []
  | fuel + 1, n => if n = 0 then [] else minBEAux fuel (n / 256) ++ [n % 256]

/-- Minimal big-endian byte representation of a natural number; `0` is the
empty byte string.  This is the integer-to-bytes conversion used by the
parity `rlp` crate when appending unsigned scalars (`U128`/`U256`). -/
def minBE (n : Nat) : List Nat :=
  minBEAux n n

/-- Big-endian interpretation of a byte string, inverse of `minBE`. -/
def fromBE (l : List Nat) : Nat :=
  l.foldl (fun acc b => acc * 256 + b) 0

/-! ## RLP encoding (parity `rlp` crate, as used by `impl Encodable for Block`) -/

/-- RLP encoding of a raw byte string (the parity `rlp` crate `encode_value`
rule): a single byte below `0x80` stands for itself; otherwise the string is
prefixed with `0x80 + length` (short form, length below 56) or with
`0xb7 + length-of-length` followed by the big-endian length (long form). -/
def encBytes (s : List Nat) : List Nat :=
  if s.length = 1 ∧ s.headD 0 < 128 then s
  else if s.length < 56 then (128 + s.length) :: s
  else (183 + (minBE s.length).length) :: (minBE s.length ++ s)

/-- RLP encoding of an unsigned scalar (`U128`/`U256` in the parity `rlp`
crate): the minimal big-endian bytes under the byte-string rule. -/
def encScalar (n : Nat) : List Nat :=
  encBytes (minBE n)

/-- RLP header emitted by `begin_list` once the list payload length is known:
`0xc0 + length` (short form) or `0xf7 + length-of-length` followed by the
big-endian length (long form). -/
def listHeader (len : Nat) : List Nat :=
  if len < 56 then [192 + len]
  else (247 + (minBE len).length) :: minBE len

/-- Proof gadget (not part of the embedding): splits one RLP item off the
front of a byte stream, returning the item content and the remaining
stream.  Used to prove that the block encoding is injective. -/
def rlpSplit (l : List Nat) : Option (List Nat × List Nat) :=
  match l with
  | [] => none
  | b :: rest =>
    if b < 128 then some ([b], rest)
    else if b < 184 then some (rest.take (b - 128), rest.drop (b - 128))
    else if b < 192 then
      let ll := b - 183
      let len := fromBE (rest.take ll)
      some (((rest.drop ll).take len, (rest.drop ll).drop len))
    else if b < 248 then some (rest.take (b - 192), rest.drop (b - 192))
    else
      let ll := b - 247
      let len := fromBE (rest.take ll)
      some (((rest.drop ll).take len, (rest.drop ll).drop len))

/-! ## Keccak-256 (the `tiny_keccak` crate used by `Block::hash`)

The state is a list of 25 lanes of 64 bits; lane `(x, y)` sits at index
`x + 5 * y`.  Bytes are absorbed at rate 136 with the `pad10*1` padding and
domain byte `0x01` (original Keccak, not NIST SHA-3). -/

/-- Left-rotation of a 64-bit lane. -/
def rotl64 (x n : Nat) : Nat :=
  Nat.lor ((x <<< n) % 2 ^ 64) ((x % 2 ^ 64) >>> (64 - n))

/-- Keccak round constants for the 24 rounds of Keccak-f[1600]. -/
def keccakRoundConstants : List Nat :=
  [0x1, 0x8082, 0x800000000000808a, 0x8000000080008000, -- rounds 0 to 3
   0x808b, 0x80000001, 2 ^ 63 + 0x80008081, 2 ^ 63 + 0x8009, -- rounds 4 to 7
   0x8a, 0x88, 0x80008009, 0x8000000a, -- rounds 8 to 11
   0x8000808b, 0x800000000000008b, -- rounds 12 and 13
   2 ^ 63 + 0x8089, 2 ^ 63 + 0x8003, -- rounds 14 and 15
   2 ^ 63 + 0x8002, 2 ^ 63 + 0x80, -- rounds 16 and 17
   0x800a, 0x800000008000000a, -- rounds 18 and 19
   2 ^ 63 + 0x80008081, 2 ^ 63 + 0x8080, -- rounds 20 and 21
   0x80000001, 2 ^ 63 + 0x80008008] -- rounds 22 and 23

/-- Rotation offsets of the rho step, indexed by `x + 5 * y`: one inner
list per row `y`. -/
def keccakRotOffsets : List Nat :=
  [[0, 1, 62, 28, 27],
   [36, 44, 6, 55, 20],
   [3, 10, 43, 25, 39],
   [41, 45, 15, 21, 8],
   [18, 2, 61, 56, 14]].flatten

/-- Theta step of Keccak-f[1600]. -/
def keccakTheta (A : List Nat) : List Nat :=
  let C := (List.range 5).map (fun x =>
    Nat.xor (Nat.xor (Nat.xor (Nat.xor (A.getD x 0) (A.getD (x + 5) 0)) (A.getD (x + 10) 0))
      (A.getD (x + 15) 0)) (A.getD (x + 20) 0))
  (List.range 25).map (fun i =>
    let x := i % 5
    Nat.xor (A.getD i 0) (Nat.xor (C.getD ((x + 4) % 5) 0) (rotl64 (C.getD ((x + 1) % 5) 0) 1)))

/-- Combined rho and pi steps: the output lane at `(X, Y)` is the rotated
input lane at `(X + 3 Y mod 5, X)`. -/
def keccakRhoPi (A : List Nat) : List Nat :=
  (List.range 25).map (fun i =>
    let bigX := i % 5
    let bigY := i / 5
    let src := (bigX + 3 * bigY) % 5 + 5 * bigX
    rotl64 (A.getD src 0) (keccakRotOffsets.getD src 0))

/-- Chi step of Keccak-f[1600]. -/
def keccakChi (B : List Nat) : List Nat :=
  (List.range 25).map (fun i =>
    let x := i % 5
    let y := i / 5
    Nat.xor (B.getD i 0)
      (Nat.land (Nat.xor (B.getD ((x + 1) % 5 + 5 * y) 0) (2 ^ 64 - 1))
        (B.getD ((x + 2) % 5 + 5 * y) 0)))

/-- One round of Keccak-f[1600]: theta, rho, pi, chi, then iota with the
round constant. -/
def keccakRound (A : List Nat) (rc : Nat) : List Nat :=
  let B := keccakChi (keccakRhoPi (keccakTheta A))
  B.set 0 (Nat.xor (B.getD 0 0) rc)

/-- The full Keccak-f[1600] permutation: 24 rounds. -/
def keccakF1600 (A : List Nat) : List Nat :=
  keccakRoundConstants.foldl keccakRound A

/-- Little-endian interpretation of up to eight bytes as one 64-bit lane. -/
def fromLEBytes (l : List Nat) : Nat :=
  l.foldr (fun b acc => acc * 256 + b) 0

/-- The eight little-endian bytes of a 64-bit lane. -/
def laneToLEBytes (lane : Nat) : List Nat :=
  (List.range 8).map (fun j => lane / 256 ^ j % 256)

/-- Multi-rate padding `pad10*1` with domain byte `0x01` (Keccak-256 at
rate 136). -/
def keccakPad (msg : List Nat) : List Nat :=
  let padLen := 136 - msg.length % 136
  if padLen = 1 then msg ++ [0x81]
  else msg ++ 0x01 :: (List.replicate (padLen - 2) 0 ++ [0x80])

/-- Xors one 136-byte block into the first 17 lanes of the state. -/
def keccakXorIn (st chunk : List Nat) : List Nat :=
  (List.range 25).map (fun i => Nat.xor (st.getD i 0) (fromLEBytes ((chunk.drop (8 * i)).take 8)))

/-- Absorbs an already padded message block by block. -/
def keccakAbsorb (st : List Nat) (rest : List Nat) : List Nat :=
  if h : rest = [] then st
  else keccakAbsorb (keccakF1600 (keccakXorIn st (rest.take 136))) (rest.drop 136)
termination_by rest.length
decreasing_by
  have hpos : 0 < rest.length := List.length_pos.mpr h
  simp only [List.length_drop]
  omega

/-- The first 32 bytes of the state, little-endian per lane. -/
def keccakSqueeze (st : List Nat) : List Nat :=
  ((List.range 4).map (fun i => laneToLEBytes (st.getD i 0))).flatten

/-- Keccak-256 of a byte string, as computed by `Keccak::keccak256` from the
`tiny_keccak` crate. -/
def keccak256 (msg : List Nat) : List Nat :=
  keccakSqueeze (keccakAbsorb (List.replicate 25 0) (keccakPad msg))

/-! ## Block model (`src/ethereum/types/block.rs`)

`H256`/`H160`/`H2048` become byte lists with a well-formedness predicate
fixing their widths, `U128`/`U256` become `Nat` with explicit range bounds,
`Bytes` becomes a plain byte list. -/

/-- Embeds the `Event` struct of `src/ethereum/types/block.rs`: a raw log
attached to a block (field-for-field copy of a `web3` log). -/
structure RawEvent where
  address : List Nat
  topics : List (List Nat)
  data : List Nat
  block_hash : Option (List Nat)
  block_number : Option Nat
  transaction_hash : Option (List Nat)
  transaction_index : Option Nat
  log_index : Option Nat
  transaction_log_index : Option Nat
  log_type : Option String
  removed : Option Bool
deriving DecidableEq

/-- Embeds the `Block` struct of `src/ethereum/types/block.rs`. -/
structure Block where
  hash : List Nat
  parent_hash : List Nat
  uncles_hash : List Nat
  author : List Nat
  state_root : List Nat
  transactions_root : List Nat
  receipts_root : List Nat
  logs_bloom : List Nat
  total_difficulty : Nat
  number : Nat
  gas_limit : Nat
  gas_used : Nat
  timestamp : Nat
  extra_data : List Nat
  mix_data : List Nat
  nonce : Nat
  events : List RawEvent
deriving DecidableEq

/-- Embeds `rlp_append` of `impl Encodable for Block`: the list payload is
the concatenation of the 15 appended field encodings, in source order.
Note that `hash` is appended (position 13) while `extra_data` and `events`
are not appended at all. -/
def rlpAppendPayload (b : Block) : List Nat :=
  encBytes b.parent_hash ++ encBytes b.uncles_hash ++ encBytes b.author ++
  encBytes b.state_root ++ encBytes b.transactions_root ++ encBytes b.receipts_root ++
  encBytes b.logs_bloom ++ encScalar b.total_difficulty ++ encScalar b.number ++
  encScalar b.gas_limit ++ encScalar b.gas_used ++ encScalar b.timestamp ++
  encBytes b.hash ++ encBytes b.mix_data ++ encScalar b.nonce

/-- Embeds `rlp::encode(block)`: the list header for the payload length
followed by the payload (`begin_list(15)` plus the 15 `append` calls). -/
def rlpEncode (b : Block) : List Nat :=
  listHeader (rlpAppendPayload b).length ++ rlpAppendPayload b

/-- Embeds the `Block::hash` method: the Keccak-256 digest of the RLP
encoding of the block.  Named `contentHash` because the Lean structure
already has a field named `hash`. -/
def Block.contentHash (b : Block) : List Nat :=
  keccak256 (rlpEncode b)

/-- A byte string of the given fixed width. -/
def WfBytes (s : List Nat) (n : Nat) : Prop :=
  s.length = n ∧ ∀ b ∈ s, b < 256

/-- Well-formedness of a block: the fixed-hash fields have their Rust
widths (`H256`, `H160`, `H2048`) and the scalar fields fit their Rust
integer types (`U128`, `U256`). -/
def Block.Wf (b : Block) : Prop :=
  WfBytes b.hash 32 ∧ WfBytes b.parent_hash 32 ∧ WfBytes b.uncles_hash 32 ∧
  WfBytes b.author 20 ∧ WfBytes b.state_root 32 ∧ WfBytes b.transactions_root 32 ∧
  WfBytes b.receipts_root 32 ∧ WfBytes b.logs_bloom 256 ∧ WfBytes b.mix_data 32 ∧
  b.total_difficulty < 2 ^ 256 ∧ b.number < 2 ^ 128 ∧ b.gas_limit < 2 ^ 256 ∧
  b.gas_used < 2 ^ 256 ∧ b.timestamp < 2 ^ 256 ∧ b.nonce < 2 ^ 256

instance (b : Block) : Decidable b.Wf := by
  unfold Block.Wf WfBytes
  infer_instance

/-- Equality of the 15 fields that `rlp_append` serializes. -/
def EncFieldsEq (b1 b2 : Block) : Prop :=
  b1.parent_hash = b2.parent_hash ∧ b1.uncles_hash = b2.uncles_hash ∧
  b1.author = b2.author ∧ b1.state_root = b2.state_root ∧
  b1.transactions_root = b2.transactions_root ∧ b1.receipts_root = b2.receipts_root ∧
  b1.logs_bloom = b2.logs_bloom ∧ b1.total_difficulty = b2.total_difficulty ∧
  b1.number = b2.number ∧ b1.gas_limit = b2.gas_limit ∧ b1.gas_used = b2.gas_used ∧
  b1.timestamp = b2.timestamp ∧ b1.hash = b2.hash ∧ b1.mix_data = b2.mix_data ∧
  b1.nonce = b2.nonce

instance (b1 b2 : Block) : Decidable (EncFieldsEq b1 b2) := by
  unfold EncFieldsEq
  infer_instance

/-! ## Event registry (`src/event/mod.rs`, `src/event/block_reported.rs`,
`src/event/block_finalized.rs`)

`web3::types::Log` becomes a structure of byte lists; the two boxed
factory trait objects become an inductive of the two factory kinds; the
two-level `HashMap` becomes a two-level association list with
`HashMap::get`/`HashMap::insert` semantics. -/

/-- Embeds `web3::types::Log`. -/
structure Log where
  address : List Nat
  topics : List (List Nat)
  data : List Nat
  block_hash : Option (List Nat)
  block_number : Option Nat
  transaction_hash : Option (List Nat)
  transaction_index : Option Nat
  log_index : Option Nat
  transaction_log_index : Option Nat
  log_type : Option String
  removed : Option Bool
deriving DecidableEq

/-- Embeds the `Event` enum of `src/event/mod.rs`. -/
inductive Event
  | blockFinalized (block_hash : List Nat)
  | blockReported (block_hash : List Nat)
deriving DecidableEq

/-- Embeds the `ErrorKind` enum of `src/error.rs`. -/
inductive ErrorKind
  | abiError
  | invalidBlock
  | nodeError
deriving DecidableEq

/-- Embeds the `Error` struct of `src/error.rs`; the explanation strings
built with `format!` carry no program logic and are elided. -/
structure Error where
  kind : ErrorKind
deriving DecidableEq

/-- Embeds the fragment of `ethabi::Token` that can appear in this program:
`decode(&[ParamType::FixedBytes(32)], …)` only ever yields `FixedBytes`
tokens, the catch-all constructor stands for every other variant. -/
inductive Token
  | fixedBytes (bytes : List Nat)
  | otherToken
deriving DecidableEq

/-- Modelled from the `ethabi` library (third party): decoding a single
`FixedBytes(32)` parameter reads the first 32 bytes of the payload and
fails with a decode error when fewer than 32 bytes are present; surplus
trailing bytes are ignored. -/
def ethabiDecodeFixedBytes32 (data : List Nat) : Except Unit (List Token) :=
  if 32 ≤ data.length then Except.ok [Token.fixedBytes (data.take 32)]
  else Except.error ()

/-- Embeds `block_hash_from_abi` of `src/event/mod.rs`. -/
def block_hash_from_abi (token : Token) : Except Error (List Nat) :=
  match token with
  | Token.fixedBytes bytes => Except.ok bytes
  | _ => Except.error ⟨ErrorKind.abiError⟩

/-- Topic constant of `BlockFinalizedFactory::default`:
`sha3("BlockFinalised(bytes32)")`. -/
def blockFinalizedTopic : List Nat :=
  [0x2b, 0x6c, 0xea, 0x6a, 0xdc, 0x0c, 0x09, 0x2a, 0xb6, 0x54, 0xc3, 0x2a,
   0x0e, 0xe1, 0x9b, 0x8c, 0xcd, 0xda, 0xfb, 0xbc, 0x78, 0x0b, 0xce, 0x0a,
   0x5d, 0xd1, 0x93, 0xbc, 0x30, 0xaa, 0x18, 0x6e]

/-- Topic constant of `BlockReportedFactory::default`:
`sha3("BlockReported(bytes32)")`. -/
def blockReportedTopic : List Nat :=
  [0x72, 0x13, 0x03, 0xf9, 0xf1, 0x30, 0x58, 0xe7, 0xa8, 0xab, 0xd8, 0x03,
   0x6b, 0x28, 0x97, 0xd3, 0xce, 0xe2, 0x74, 0x92, 0xb2, 0x47, 0xec, 0xed,
   0xdd, 0x62, 0x03, 0xff, 0x60, 0x1c, 0x00, 0x6b]

/-- The two `EventFactory` implementations registered by
`auxiliary_event_registry`. -/
inductive EventFactoryKind
  | blockFinalizedFactory
  | blockReportedFactory
deriving DecidableEq

/-- Embeds the `topic` method of the two factories. -/
def factoryTopic : EventFactoryKind → List Nat
  | EventFactoryKind.blockFinalizedFactory => blockFinalizedTopic
  | EventFactoryKind.blockReportedFactory => blockReportedTopic

/-- Embeds `BlockFinalizedFactory::from_log` and
`BlockReportedFactory::from_log`: ABI-decode one `FixedBytes(32)` from the
log data, convert it with `block_hash_from_abi`, and wrap it in the
factory's event variant.  The decoded token list always has exactly one
element, mirroring the `decoded_elements[0]` indexing of the source. -/
def factoryFromLog (factory : EventFactoryKind) (log : Log) : Except Error Event :=
  match ethabiDecodeFixedBytes32 log.data with
  | Except.ok decoded_elements =>
    match block_hash_from_abi (decoded_elements.headD Token.otherToken) with
    | Except.ok block_hash =>
      match factory with
      | EventFactoryKind.blockFinalizedFactory => Except.ok (Event.blockFinalized block_hash)
      | EventFactoryKind.blockReportedFactory => Except.ok (Event.blockReported block_hash)
    | Except.error e => Except.error e
  | Except.error _ => Except.error ⟨ErrorKind.abiError⟩

/-- Association-list embedding of `HashMap::get`. -/
def assocGet {β : Type} (m : List (List Nat × β)) (k : List Nat) : Option β :=
  match m with
  | [] => none
  | e :: rest => if e.1 = k then some e.2 else assocGet rest k

/-- Association-list embedding of `HashMap::insert`: replaces the value of
an existing key, appends a new entry otherwise; the previous value is
discarded. -/
def assocInsert {β : Type} (m : List (List Nat × β)) (k : List Nat) (v : β) :
    List (List Nat × β) :=
  match m with
  | [] => [(k, v)]
  | e :: rest => if e.1 = k then (k, v) :: rest else e :: assocInsert rest k v

/-- Embeds the `EventRegistry` struct of `src/event/mod.rs`: a map from
log addresses to maps from log topics to factories. -/
structure EventRegistry where
  factories : List (List Nat × List (List Nat × EventFactoryKind))
deriving DecidableEq

/-- Embeds `EventRegistry::new`. -/
def EventRegistry.new : EventRegistry :=
  ⟨[]⟩

/-- Embeds `EventRegistry::register_event_factory`:
`self.factories.entry(address).or_insert_with(HashMap::new)` followed by
`topic_map.insert(topic, factory)`. -/
def EventRegistry.register_event_factory (r : EventRegistry) (address : List Nat)
    (topic : List Nat) (factory : EventFactoryKind) : EventRegistry :=
  let topic_map := (assocGet r.factories address).getD []
  ⟨assocInsert r.factories address (assocInsert topic_map topic factory)⟩

/-- Embeds `EventRegistry::log_into_event`. -/
def EventRegistry.log_into_event (r : EventRegistry) (log : Log) :
    Except Error (Option Event) :=
  match assocGet r.factories log.address with
  | some map =>
    match log.topics with
    | [] => Except.ok none
    | t0 :: _ =>
      match assocGet map t0 with
      | some factory => (factoryFromLog factory log).map some
      | none => Except.ok none
  | none => Except.ok none

/-- The factory found for a log address and first topic, if any: the
two-level lookup performed by `log_into_event`. -/
def EventRegistry.lookupFactory (r : EventRegistry) (address topic : List Nat) :
    Option EventFactoryKind :=
  match assocGet r.factories address with
  | some map => assocGet map topic
  | none => none

/-- The event built by a factory from a 32-byte ABI payload. -/
def factoryEvent (factory : EventFactoryKind) (block_hash : List Nat) : Event :=
  match factory with
  | EventFactoryKind.blockFinalizedFactory => Event.blockFinalized block_hash
  | EventFactoryKind.blockReportedFactory => Event.blockReported block_hash

/-! ## Block reporter reactor (`src/reactor/block_reporter.rs`)

The future chain spawned by `BlockReporter::react` is embedded as the
trace of remote operations it issues, parameterized by the outcome of the
`isBlockReported` query.  The `web3::contract::Error` of a failed query
carries no program logic and is modelled as `Unit`. -/

/-- A remote operation issued by the reactor: the node account unlock, a
read-only contract query, or a state-changing contract call. -/
inductive ContractOp
  | unlockAccount (duration : Option Nat)
  | query (method : String) (block_hash : List Nat) (sender : List Nat)
  | call (method : String) (payload : List Nat) (sender : List Nat) (gas : Int)
deriving DecidableEq

/-- Embeds the `REPORT_BLOCK_ESTIMATED_GAS` constant. -/
def REPORT_BLOCK_ESTIMATED_GAS : Int := 3000000

/-- Whether an operation is a state-changing contract call
(`Contract::call`, as opposed to `Contract::query` or the unlock). -/
def ContractOp.isStateChangingCall : ContractOp → Bool
  | ContractOp.call _ _ _ _ => true
  | _ => false

/-- Embeds `BlockReporter::react`: unlock the account, query
`isBlockReported(block.hash(), from)`, then — only when the query returns
`Ok(false)` — submit `reportBlock(rlp::encode(block), from)` with the fixed
gas budget.  On `Ok(true)` and on a query error the future resolves with
`Ok(())` without issuing any call. -/
def blockReporterReact (sender : List Nat) (block : Block)
    (queryResult : Except Unit Bool) : List ContractOp :=
  let encoded_block := rlpEncode block
  let block_hash := block.contentHash
  ContractOp.unlockAccount (some 0) ::
  ContractOp.query "isBlockReported" block_hash sender ::
  (match queryResult with
   | Except.ok true => []
   | Except.ok false =>
     [ContractOp.call "reportBlock" encoded_block sender REPORT_BLOCK_ESTIMATED_GAS]
   | Except.error _ => [])

/-! ## Observer worker (`src/observer/mod.rs`)

The block stream is embedded as a list of `Result` items; the worker fold
mirrors the `then`/`for_each` combinator chain: an `Err` item is logged
and mapped to `None`, an `Ok` block is handed to the block function whose
error is also only logged.  The returned pair carries the blocks handed to
the block function (in order) and the final value of the worker future,
whose Rust type is `Future<Item = (), Error = ()>`. -/

/-- Embeds the `worker` function of `src/observer/mod.rs` on a finite
stream prefix. -/
def worker (block_stream : List (Except Error Block))
    (block_function : Block → Except Error Unit) : List Block × Except Unit Unit :=
  match block_stream with
  | [] => ([], Except.ok ())
  | item :: rest =>
    match item with
    | Except.error _ => worker rest block_function
    | Except.ok block =>
      let processed := worker rest block_function
      match block_function block with
      | Except.ok _ => (block :: processed.1, processed.2)
      | Except.error _ => (block :: processed.1, processed.2)

/-! ## Block-number conversions (`src/blockchain/types/basic_types.rs`,
`src/ethereum/mod.rs`, `src/blockchain/ethereum.rs`)

A `U128` value is embedded as the natural number it represents; its low
limb is `n % 2 ^ 64` and its high limb is `n / 2 ^ 64`. -/

/-- Outcome of a Rust computation that can return normally, return an
error value, or panic. -/
inductive Outcome (α : Type)
  | ok (value : α)
  | err (kind : ErrorKind)
  | panicked
deriving DecidableEq

/-- Modelled from the `web3`/`ethereum-types` library (third party):
`U128::low_u64` returns the low 64-bit limb, discarding the high limb
without any check. -/
def lowU64 (n : Nat) : Nat :=
  n % 2 ^ 64

/-- Embeds `impl From<U128> for u64` of
`src/blockchain/types/basic_types.rs`: panics when the high limb is
non-zero, otherwise returns the low limb. -/
def u64FromU128 (n : Nat) : Outcome Nat :=
  if n / 2 ^ 64 ≠ 0 then Outcome.panicked else Outcome.ok n

/-- Embeds the block-number conversion inside `Ethereum::stream_blocks` of
`src/ethereum/mod.rs` (line 172): the log filter for a polled block is
built from `block.number.low_u64()`. -/
def streamBlocksLogFilterNumber (b : Block) : Nat :=
  lowU64 b.number

/-! ## Hex parsing of value types (`src/blockchain/types/address.rs`,
`src/blockchain/types/bytes.rs`)

Strings are embedded as lists of characters; `&s[..2]` byte slicing is
embedded as character slicing, which panics out of bounds exactly as the
Rust slice does on the ASCII inputs these functions are written for. -/

/-- Embeds the `ErrorKind` enum of `src/blockchain/types/error.rs`. -/
inductive BlockchainErrorKind
  | invalidAddress
  | invalidBytes
  | invalidSignature
  | nodeErrorKind
deriving DecidableEq

/-- Outcome of a parse: a value, a format error with its kind, or a Rust
panic. -/
inductive ParseOutcome (α : Type)
  | ok (value : α)
  | err (kind : BlockchainErrorKind)
  | panicked
deriving DecidableEq

/-- Modelled from Rust `char::is_whitespace` (the Unicode `White_Space`
property), as used by `str::trim`. -/
def rustIsWhitespace (c : Char) : Bool :=
  (9 ≤ c.toNat && c.toNat ≤ 13) || c.toNat = 32 || c.toNat = 133 || c.toNat = 160 ||
  c.toNat = 0x1680 || (0x2000 ≤ c.toNat && c.toNat ≤ 0x200a) || c.toNat = 0x2028 ||
  c.toNat = 0x2029 || c.toNat = 0x202f || c.toNat = 0x205f || c.toNat = 0x3000

/-- Embeds `str::trim`: drops whitespace from both ends. -/
def rustTrim (s : List Char) : List Char :=
  ((s.dropWhile rustIsWhitespace).reverse.dropWhile rustIsWhitespace).reverse

/-- Modelled from Rust `char::to_digit(16)`: the value of one hex digit in
either letter case. -/
def toDigit16 (c : Char) : Option Nat :=
  if 48 ≤ c.toNat ∧ c.toNat ≤ 57 then some (c.toNat - 48)
  else if 97 ≤ c.toNat ∧ c.toNat ≤ 102 then some (c.toNat - 97 + 10)
  else if 65 ≤ c.toNat ∧ c.toNat ≤ 70 then some (c.toNat - 65 + 10)
  else none

/-- Modelled from Rust `u8::from_str_radix(s, 16)` on a two-character
slice: an optional leading plus sign, then hex digits; a minus sign or any
non-digit is an error.  Two hex digits never overflow a `u8`. -/
def u8FromStrRadix16 (c1 c2 : Char) : Option Nat :=
  if c1 = '+' then toDigit16 c2
  else
    match toDigit16 c1, toDigit16 c2 with
    | some d1, some d2 => some (16 * d1 + d2)
    | _, _ => none

/-- Embeds the byte-conversion loop shared verbatim by
`Address::from_string` and `Bytes::from_str`: parse `&cleaned[..2]`, push
the byte, cut two characters, and stop once fewer than two characters
remain (a trailing odd character is silently dropped).  Entering the loop
with fewer than two characters panics on the slice, exactly as in Rust;
both callers guard the length before the loop.  The error kind parameter
is `InvalidAddress` in `from_string` and `InvalidBytes` in `from_str`. -/
def hexPairLoop (kind : BlockchainErrorKind) : List Char → ParseOutcome (List Nat)
  | c1 :: c2 :: rest =>
    match u8FromStrRadix16 c1 c2 with
    | none => ParseOutcome.err kind
    | some byte =>
      if rest.length < 2 then ParseOutcome.ok [byte]
      else
        match hexPairLoop kind rest with
        | ParseOutcome.ok bytes => ParseOutcome.ok (byte :: bytes)
        | other => other
  | _ => ParseOutcome.panicked

/-- Embeds `Address::from_string`: trim, strip one optional leading `0x`
(the slice `&cleaned[..2]` panics when fewer than two characters remain
after trimming), require exactly 40 characters, then run the byte loop. -/
def addressFromString (string : List Char) : ParseOutcome (List Nat) :=
  let cleaned := rustTrim string
  if cleaned.length < 2 then ParseOutcome.panicked
  else
    let cleaned := if cleaned.take 2 = ['0', 'x'] then cleaned.drop 2 else cleaned
    if cleaned.length ≠ 40 then ParseOutcome.err BlockchainErrorKind.invalidAddress
    else hexPairLoop BlockchainErrorKind.invalidAddress cleaned

/-- Embeds `Bytes::from_str`: trim, strip one optional leading `0x` (the
slice `&cleaned[..2]` panics when fewer than two characters remain after
trimming), accept the empty remainder, require an even length, then run
the byte loop. -/
def bytesFromStr (string : List Char) : ParseOutcome (List Nat) :=
  let cleaned := rustTrim string
  if cleaned.length < 2 then ParseOutcome.panicked
  else
    let cleaned := if cleaned.take 2 = ['0', 'x'] then cleaned.drop 2 else cleaned
    if cleaned.isEmpty then ParseOutcome.ok []
    else if cleaned.length % 2 ≠ 0 then ParseOutcome.err BlockchainErrorKind.invalidBytes
    else hexPairLoop BlockchainErrorKind.invalidBytes cleaned

/-- Embeds the `LowerHex` impl for `Address`: each byte is written with
the `{:02x}` format, two lowercase hex digits. -/
def hexDigitChar (d : Nat) : Char :=
  if d < 10 then Char.ofNat (48 + d) else Char.ofNat (87 + d)

/-- The two lowercase hex digits of one byte (`format!("{:02x}", byte)`). -/
def byteToLowerHex (b : Nat) : List Char :=
  [hexDigitChar (b / 16), hexDigitChar (b % 16)]

/-- Embeds `format!("{:x}", address)`: the concatenated two-digit lowercase
hex of every byte. -/
def addressToLowerHex (bytes : List Nat) : List Char :=
  (bytes.map byteToLowerHex).flatten

/-- ASCII lowercasing of a character, relating mixed-case input digits to
the lowercase output of the formatter. -/
def charToLower (c : Char) : Char :=
  if 65 ≤ c.toNat ∧ c.toNat ≤ 90 then Char.ofNat (c.toNat + 32) else c

/-- The 22 characters that are hex digits. -/
def hexDigitChars : List Char :=
  "0123456789abcdefABCDEF".toList

/-- Whether a character is a hex digit. -/
def isHexDigitChar (c : Char) : Bool :=
  decide (c ∈ hexDigitChars)

/-- The byte value of a two-hex-digit pair. -/
def hexPairValue (c1 c2 : Char) : Nat :=
  16 * (toDigit16 c1).getD 0 + (toDigit16 c2).getD 0

/-- The byte values of a string of hex-digit pairs. -/
def hexPairsValue : List Char → List Nat
  | c1 :: c2 :: rest => hexPairValue c1 c2 :: hexPairsValue rest
  | _ => []

/-! ## Concrete sample data used by counterexamples and witnesses -/

/-- A minimal well-formed block: all hash fields zero, all scalars zero,
no extra data, no events. -/
def zeroBlock : Block :=
  ⟨List.replicate 32 0, List.replicate 32 0, List.replicate 32 0, List.replicate 20 0,
   List.replicate 32 0, List.replicate 32 0, List.replicate 32 0, List.replicate 256 0,
   0, 0, 0, 0, 0, [], List.replicate 32 0, 0, []⟩

/-- `zeroBlock` with only the chain-assigned `hash` field changed. -/
def hashTweakedBlock : Block :=
  { zeroBlock with hash := List.replicate 31 0 ++ [1] }

/-- `zeroBlock` with only the `extra_data` field changed. -/
def extraTweakedBlock : Block :=
  { zeroBlock with extra_data := [7] }

/-- `zeroBlock` with a block number just past the 64-bit range
(`U128` limbs `[0, 1]`). -/
def bigNumberBlock : Block :=
  { zeroBlock with number := 2 ^ 64 }

/-- The block store address used in the repository's own tests:
`0x1234567890123456789012345678901234567890`. -/
def sampleStoreAddress : List Nat :=
  [0x12, 0x34, 0x56, 0x78, 0x90, 0x12, 0x34, 0x56, 0x78, 0x90,
   0x12, 0x34, 0x56, 0x78, 0x90, 0x12, 0x34, 0x56, 0x78, 0x90]

/-- An address with no registered factories:
`0xa23456789012345678901234567890123456789a`. -/
def otherAddress : List Nat :=
  [0xa2, 0x34, 0x56, 0x78, 0x90, 0x12, 0x34, 0x56, 0x78, 0x90,
   0x12, 0x34, 0x56, 0x78, 0x90, 0x12, 0x34, 0x56, 0x78, 0x9a]

/-- A registry with the block-reported factory bound for
`(sampleStoreAddress, blockReportedTopic)`, as in the repository's tests. -/
def sampleRegistry : EventRegistry :=
  EventRegistry.new.register_event_factory sampleStoreAddress blockReportedTopic
    EventFactoryKind.blockReportedFactory

/-- A log carrying a well-formed 32-byte `BlockReported` payload. -/
def sampleReportedLog : Log :=
  ⟨sampleStoreAddress, [blockReportedTopic], List.replicate 32 0x12,
   none, none, none, none, none, none, none, none⟩

/-- `sampleReportedLog` with every field outside address, first topic and
data changed: extra metadata, a trailing topic, the removed flag. -/
def sampleReportedLogNoisy : Log :=
  ⟨sampleStoreAddress, [blockReportedTopic, blockFinalizedTopic], List.replicate 32 0x12,
   some (List.replicate 32 3), some 7, some (List.replicate 32 4), some 1,
   some 2, some 3, some "mined", some true⟩

/-- A log from an address with no registered decoders. -/
def unregisteredLog : Log :=
  ⟨otherAddress, [blockReportedTopic], List.replicate 32 0x12,
   none, none, none, none, none, none, none, none⟩

/-- A matched log whose data payload is shorter than one ABI word. -/
def shortDataLog : Log :=
  ⟨sampleStoreAddress, [blockReportedTopic], [1, 2, 3],
   none, none, none, none, none, none, none, none⟩

/-- A valid mixed-case 40-hex-digit address string. -/
def sampleHexChars : List Char :=
  "123456789AbCdEf01234123456789aBcDeF01234".toList

/-! ## Supporting lemmas -/

theorem minBEAux_stable : ∀ fuel1 : Nat, ∀ fuel2 n : Nat, n ≤ fuel1 → n ≤ fuel2 →
    minBEAux fuel1 n = minBEAux fuel2 n := by
  intro fuel1
  induction fuel1 using Nat.strong_induction_on with
  | _ fuel1 ih =>
    intro fuel2 n h1 h2
    match fuel1, fuel2 with
    | 0, 0 => rfl
    | 0, f2 + 1 =>
      have : n = 0 := by omega
      subst this
      simp [minBEAux]
    | f1 + 1, 0 =>
      have : n = 0 := by omega
      subst this
      simp [minBEAux]
    | f1 + 1, f2 + 1 =>
      by_cases hn : n = 0
      · subst hn
        simp [minBEAux]
      · simp only [minBEAux, if_neg hn]
        have hlt : n / 256 < n := Nat.div_lt_self (Nat.pos_of_ne_zero hn) (by omega)
        have hdivle : n / 256 ≤ f1 := by omega
        have hdivle2 : n / 256 ≤ f2 := by omega
        rw [ih f1 (by omega) f2 (n / 256) hdivle hdivle2]

theorem minBE_zero : minBE 0 = [] := rfl

theorem minBE_eq (n : Nat) (h : n ≠ 0) :
    minBE n = minBE (n / 256) ++ [n % 256] := by
  match n, h with
  | m + 1, _ =>
    show minBEAux (m + 1) (m + 1) = minBE ((m + 1) / 256) ++ [(m + 1) % 256]
    rw [minBEAux, if_neg (Nat.succ_ne_zero m)]
    have hlt : (m + 1) / 256 < m + 1 := Nat.div_lt_self (Nat.succ_pos m) (by omega)
    have hdiv : (m + 1) / 256 ≤ m := by omega
    rw [minBEAux_stable m ((m + 1) / 256) ((m + 1) / 256) hdiv (le_refl _)]
    rfl

theorem fromBE_append_one (l : List Nat) (b : Nat) :
    fromBE (l ++ [b]) = fromBE l * 256 + b := by
  simp [fromBE, List.foldl_append]

theorem fromBE_minBE (num : Nat) : fromBE (minBE num) = num := by
  induction num using Nat.strongRecOn with
  | ind n ih =>
    match n with
    | 0 => simp [minBE, minBEAux, fromBE]
    | m + 1 =>
      rw [minBE_eq (m + 1) (by omega), fromBE_append_one,
        ih ((m + 1) / 256) (Nat.div_lt_self (Nat.succ_pos m) (by omega))]
      omega

theorem minBE_length_le (k : Nat) : ∀ n : Nat, n < 2 ^ (8 * k) → (minBE n).length ≤ k := by
  induction k with
  | zero =>
    intro n hn
    interval_cases n
    simp [minBE, minBEAux]
  | succ k ih =>
    intro n hn
    match n with
    | 0 => simp [minBE, minBEAux]
    | m + 1 =>
      rw [minBE_eq (m + 1) (by omega)]
      have hdiv : (m + 1) / 256 < 2 ^ (8 * k) := by
        rw [Nat.div_lt_iff_lt_mul (by omega)]
        calc m + 1 < 2 ^ (8 * (k + 1)) := hn
        _ = 2 ^ (8 * k) * 256 := by ring
      have := ih ((m + 1) / 256) hdiv
      simp only [List.length_append, List.length_cons, List.length_nil]
      omega

theorem minBE_ne_nil (n : Nat) (h : n ≠ 0) : minBE n ≠ [] := by
  match n with
  | 0 => exact absurd rfl h
  | m + 1 =>
    rw [minBE_eq (m + 1) h]
    simp

theorem rlpSplit_encBytes (s r : List Nat) (h : s.length < 2 ^ 64) :
    rlpSplit (encBytes s ++ r) = some (s, r) := by
  unfold encBytes
  by_cases h1 : s.length = 1 ∧ s.headD 0 < 128
  · obtain ⟨b, rfl⟩ := List.length_eq_one.mp h1.1
    have hb : b < 128 := by simpa using h1.2
    simp [rlpSplit, hb]
  · simp only [if_neg h1]
    by_cases h2 : s.length < 56
    · simp only [if_pos h2]
      have hge : ¬ (128 + s.length < 128) := by omega
      have hlt : 128 + s.length < 184 := by omega
      simp only [List.cons_append, rlpSplit, if_neg hge, if_pos hlt]
      have htake : 128 + s.length - 128 = s.length := by omega
      rw [htake, List.take_left, List.drop_left]
    · simp only [if_neg h2]
      have hlenpos : s.length ≠ 0 := by omega
      have hnil := minBE_ne_nil s.length hlenpos
      have hllpos : 1 ≤ (minBE s.length).length := by
        cases hmb : minBE s.length with
        | nil => exact absurd hmb hnil
        | cons a t => simp
      have hll8 : (minBE s.length).length ≤ 8 := minBE_length_le 8 s.length h
      have hge : ¬ (183 + (minBE s.length).length < 128) := by omega
      have hge2 : ¬ (183 + (minBE s.length).length < 184) := by omega
      have hlt : 183 + (minBE s.length).length < 192 := by omega
      simp only [List.cons_append, rlpSplit, if_neg hge, if_neg hge2, if_pos hlt]
      have hsub : 183 + (minBE s.length).length - 183 = (minBE s.length).length := by omega
      rw [hsub, List.append_assoc, List.take_left, List.drop_left, fromBE_minBE,
        List.take_left, List.drop_left]

theorem rlpSplit_listHeader (p : List Nat) (h : p.length < 2 ^ 64) :
    rlpSplit (listHeader p.length ++ p) = some (p, []) := by
  unfold listHeader
  by_cases h1 : p.length < 56
  · have hge : ¬ (192 + p.length < 128) := by omega
    have hge2 : ¬ (192 + p.length < 184) := by omega
    have hge3 : ¬ (192 + p.length < 192) := by omega
    have hlt : 192 + p.length < 248 := by omega
    simp only [if_pos h1, List.cons_append, List.nil_append, rlpSplit,
      if_neg hge, if_neg hge2, if_neg hge3, if_pos hlt]
    have hsub : 192 + p.length - 192 = p.length := by omega
    rw [hsub, List.take_length, List.drop_length]
  · have hlenpos : p.length ≠ 0 := by omega
    have hnil := minBE_ne_nil p.length hlenpos
    have hllpos : 1 ≤ (minBE p.length).length := by
      cases hmb : minBE p.length with
      | nil => exact absurd hmb hnil
      | cons a t => simp
    have hll8 : (minBE p.length).length ≤ 8 := minBE_length_le 8 p.length h
    have hge : ¬ (247 + (minBE p.length).length < 128) := by omega
    have hge2 : ¬ (247 + (minBE p.length).length < 184) := by omega
    have hge3 : ¬ (247 + (minBE p.length).length < 192) := by omega
    have hge4 : ¬ (247 + (minBE p.length).length < 248) := by omega
    simp only [if_neg h1, List.cons_append, rlpSplit,
      if_neg hge, if_neg hge2, if_neg hge3, if_neg hge4]
    have hsub : 247 + (minBE p.length).length - 247 = (minBE p.length).length := by omega
    rw [hsub, List.take_left, List.drop_left, fromBE_minBE,
      List.take_length, List.drop_length]

theorem encBytes_chain {s1 s2 r1 r2 : List Nat} (h1 : s1.length < 2 ^ 64)
    (h2 : s2.length < 2 ^ 64) (h : encBytes s1 ++ r1 = encBytes s2 ++ r2) :
    s1 = s2 ∧ r1 = r2 := by
  have e1 := rlpSplit_encBytes s1 r1 h1
  have e2 := rlpSplit_encBytes s2 r2 h2
  rw [h, e2] at e1
  have := (Option.some.inj e1).symm
  exact ⟨congrArg Prod.fst this, congrArg Prod.snd this⟩

theorem encScalar_chain {n1 n2 : Nat} {r1 r2 : List Nat} (h1 : n1 < 2 ^ 256)
    (h2 : n2 < 2 ^ 256) (h : encScalar n1 ++ r1 = encScalar n2 ++ r2) :
    n1 = n2 ∧ r1 = r2 := by
  have hl1 : (minBE n1).length < 2 ^ 64 := by
    have := minBE_length_le 32 n1 (by simpa using h1)
    omega
  have hl2 : (minBE n2).length < 2 ^ 64 := by
    have := minBE_length_le 32 n2 (by simpa using h2)
    omega
  obtain ⟨hs, hr⟩ := encBytes_chain hl1 hl2 h
  refine ⟨?_, hr⟩
  have := congrArg fromBE hs
  rwa [fromBE_minBE, fromBE_minBE] at this

theorem encScalar_inj {n1 n2 : Nat} (h1 : n1 < 2 ^ 256) (h2 : n2 < 2 ^ 256)
    (h : encScalar n1 = encScalar n2) : n1 = n2 := by
  have happ : encScalar n1 ++ [] = encScalar n2 ++ [] := by
    rw [List.append_nil, List.append_nil, h]
  exact (encScalar_chain h1 h2 happ).1

theorem rlpAppendPayload_congr (b1 b2 : Block) (h : EncFieldsEq b1 b2) :
    rlpAppendPayload b1 = rlpAppendPayload b2 := by
  obtain ⟨e1, e2, e3, e4, e5, e6, e7, e8, e9, e10, e11, e12, e13, e14, e15⟩ := h
  unfold rlpAppendPayload
  rw [e1, e2, e3, e4, e5, e6, e7, e8, e9, e10, e11, e12, e13, e14, e15]

theorem rlpEncode_congr (b1 b2 : Block) (h : EncFieldsEq b1 b2) :
    rlpEncode b1 = rlpEncode b2 := by
  unfold rlpEncode
  rw [rlpAppendPayload_congr b1 b2 h]

theorem encBytes_length_le (s : List Nat) (h : s.length < 2 ^ 16) :
    (encBytes s).length ≤ 3 + s.length := by
  unfold encBytes
  by_cases h1 : s.length = 1 ∧ s.headD 0 < 128
  · simp only [if_pos h1]
    omega
  · simp only [if_neg h1]
    by_cases h2 : s.length < 56
    · simp only [if_pos h2, List.length_cons]
      omega
    · simp only [if_neg h2, List.length_cons, List.length_append]
      have := minBE_length_le 2 s.length (by simpa using h)
      omega

theorem payload_length_lt (b : Block) (hw : b.Wf) :
    (rlpAppendPayload b).length < 2 ^ 64 := by
  obtain ⟨⟨l1, -⟩, ⟨l2, -⟩, ⟨l3, -⟩, ⟨l4, -⟩, ⟨l5, -⟩, ⟨l6, -⟩, ⟨l7, -⟩, ⟨l8, -⟩,
    ⟨l9, -⟩, s1, s2, s3, s4, s5, s6⟩ := hw
  have twofivesix : (2 : Nat) ^ 256 = 2 ^ 256 := rfl
  have hsc : ∀ n : Nat, n < 2 ^ 256 → (encScalar n).length ≤ 35 := by
    intro n hn
    have hmb := minBE_length_le 32 n (by simpa using hn)
    have := encBytes_length_le (minBE n) (by omega)
    unfold encScalar
    omega
  have e1 := encBytes_length_le b.parent_hash (by omega)
  have e2 := encBytes_length_le b.uncles_hash (by omega)
  have e3 := encBytes_length_le b.author (by omega)
  have e4 := encBytes_length_le b.state_root (by omega)
  have e5 := encBytes_length_le b.transactions_root (by omega)
  have e6 := encBytes_length_le b.receipts_root (by omega)
  have e7 := encBytes_length_le b.logs_bloom (by omega)
  have e8 := encBytes_length_le b.hash (by omega)
  have e9 := encBytes_length_le b.mix_data (by omega)
  have f1 := hsc b.total_difficulty s1
  have f2 := hsc b.number (by omega)
  have f3 := hsc b.gas_limit s3
  have f4 := hsc b.gas_used s4
  have f5 := hsc b.timestamp s5
  have f6 := hsc b.nonce s6
  have h64 : (2 : Nat) ^ 64 = 18446744073709551616 := by norm_num
  unfold rlpAppendPayload
  simp only [List.length_append]
  omega

theorem rlpEncode_inj (b1 b2 : Block) (hw1 : b1.Wf) (hw2 : b2.Wf)
    (h : rlpEncode b1 = rlpEncode b2) : EncFieldsEq b1 b2 := by
  have hl1 := payload_length_lt b1 hw1
  have hl2 := payload_length_lt b2 hw2
  have e1 := rlpSplit_listHeader (rlpAppendPayload b1) hl1
  have e2 := rlpSplit_listHeader (rlpAppendPayload b2) hl2
  unfold rlpEncode at h
  rw [h, e2] at e1
  have hpay : rlpAppendPayload b1 = rlpAppendPayload b2 :=
    (congrArg Prod.fst (Option.some.inj e1)).symm
  obtain ⟨⟨m1, -⟩, ⟨m2, -⟩, ⟨m3, -⟩, ⟨m4, -⟩, ⟨m5, -⟩, ⟨m6, -⟩, ⟨m7, -⟩, ⟨m8, -⟩,
    ⟨m9, -⟩, t1, t2, t3, t4, t5, t6⟩ := hw1
  obtain ⟨⟨n1, -⟩, ⟨n2, -⟩, ⟨n3, -⟩, ⟨n4, -⟩, ⟨n5, -⟩, ⟨n6, -⟩, ⟨n7, -⟩, ⟨n8, -⟩,
    ⟨n9, -⟩, u1, u2, u3, u4, u5, u6⟩ := hw2
  have t2b : b1.number < 2 ^ 256 := lt_of_lt_of_le t2 (by norm_num)
  have u2b : b2.number < 2 ^ 256 := lt_of_lt_of_le u2 (by norm_num)
  unfold rlpAppendPayload at hpay
  simp only [List.append_assoc] at hpay
  obtain ⟨e01, hpay⟩ := encBytes_chain (by rw [m2]; norm_num) (by rw [n2]; norm_num) hpay
  obtain ⟨e02, hpay⟩ := encBytes_chain (by rw [m3]; norm_num) (by rw [n3]; norm_num) hpay
  obtain ⟨e03, hpay⟩ := encBytes_chain (by rw [m4]; norm_num) (by rw [n4]; norm_num) hpay
  obtain ⟨e04, hpay⟩ := encBytes_chain (by rw [m5]; norm_num) (by rw [n5]; norm_num) hpay
  obtain ⟨e05, hpay⟩ := encBytes_chain (by rw [m6]; norm_num) (by rw [n6]; norm_num) hpay
  obtain ⟨e06, hpay⟩ := encBytes_chain (by rw [m7]; norm_num) (by rw [n7]; norm_num) hpay
  obtain ⟨e07, hpay⟩ := encBytes_chain (by rw [m8]; norm_num) (by rw [n8]; norm_num) hpay
  obtain ⟨e08, hpay⟩ := encScalar_chain t1 u1 hpay
  obtain ⟨e09, hpay⟩ := encScalar_chain t2b u2b hpay
  obtain ⟨e10, hpay⟩ := encScalar_chain t3 u3 hpay
  obtain ⟨e11, hpay⟩ := encScalar_chain t4 u4 hpay
  obtain ⟨e12, hpay⟩ := encScalar_chain t5 u5 hpay
  obtain ⟨e13, hpay⟩ := encBytes_chain (by rw [m1]; norm_num) (by rw [n1]; norm_num) hpay
  obtain ⟨e14, hpay⟩ := encBytes_chain (by rw [m9]; norm_num) (by rw [n9]; norm_num) hpay
  have e15 := encScalar_inj t6 u6 hpay
  exact ⟨e01, e02, e03, e04, e05, e06, e07, e08, e09, e10, e11, e12, e13, e14, e15⟩

theorem assocGet_assocInsert_self {β : Type} (m : List (List Nat × β))
    (k : List Nat) (v : β) : assocGet (assocInsert m k v) k = some v := by
  induction m with
  | nil => simp [assocInsert, assocGet]
  | cons e rest ih =>
    by_cases he : e.1 = k
    · simp [assocInsert, assocGet, he]
    · simp only [assocInsert, if_neg he, assocGet, if_neg he, ih]

theorem dropWhile_eq_self_of_none {p : Char → Bool} (s : List Char)
    (h : ∀ c ∈ s, p c = false) : s.dropWhile p = s := by
  cases s with
  | nil => rfl
  | cons c t => simp [List.dropWhile, h c (by simp)]

theorem rustTrim_eq_self (s : List Char) (h : ∀ c ∈ s, rustIsWhitespace c = false) :
    rustTrim s = s := by
  unfold rustTrim
  rw [dropWhile_eq_self_of_none s h,
    dropWhile_eq_self_of_none _ (fun c hc => h c (List.mem_reverse.mp hc)),
    List.reverse_reverse]

theorem hexDigit_not_whitespace : ∀ c ∈ hexDigitChars, rustIsWhitespace c = false := by
  decide

theorem hexPairStep : ∀ c1 ∈ hexDigitChars, ∀ c2 ∈ hexDigitChars,
    u8FromStrRadix16 c1 c2 = some (hexPairValue c1 c2) ∧
    byteToLowerHex (hexPairValue c1 c2) = [charToLower c1, charToLower c2] := by
  decide

theorem hexPairLoop_ok (kind : BlockchainErrorKind) :
    ∀ (n : Nat) (s : List Char), s.length = 2 * n + 2 →
      (∀ c ∈ s, isHexDigitChar c = true) →
      hexPairLoop kind s = ParseOutcome.ok (hexPairsValue s) ∧
      ((hexPairsValue s).map byteToLowerHex).flatten = s.map charToLower := by
  intro n
  induction n with
  | zero =>
    intro s hlen hhex
    match s with
    | [] => simp at hlen
    | [c] => simp at hlen
    | c1 :: c2 :: rest =>
      have hrest : rest = [] := by
        have : rest.length = 0 := by simpa using hlen
        exact List.eq_nil_of_length_eq_zero this
      subst hrest
      have hc1 : c1 ∈ hexDigitChars := of_decide_eq_true (hhex c1 (by simp))
      have hc2 : c2 ∈ hexDigitChars := of_decide_eq_true (hhex c2 (by simp))
      obtain ⟨hu, hfmt⟩ := hexPairStep c1 hc1 c2 hc2
      constructor
      · simp [hexPairLoop, hu, hexPairsValue]
      · simp [hexPairsValue, hfmt, charToLower]
  | succ m ih =>
    intro s hlen hhex
    match s with
    | [] => simp at hlen
    | [c] => simp at hlen
    | c1 :: c2 :: rest =>
      have hrlen : rest.length = 2 * m + 2 := by
        simp only [List.length_cons] at hlen
        omega
      have hc1 : c1 ∈ hexDigitChars := of_decide_eq_true (hhex c1 (by simp))
      have hc2 : c2 ∈ hexDigitChars := of_decide_eq_true (hhex c2 (by simp))
      obtain ⟨hu, hfmt⟩ := hexPairStep c1 hc1 c2 hc2
      obtain ⟨hloop, hflat⟩ := ih rest hrlen (fun c hc => hhex c (by simp [hc]))
      have hge : ¬ (rest.length < 2) := by omega
      constructor
      · simp only [hexPairLoop, hu, if_neg hge, hloop, hexPairsValue]
      · simp only [hexPairsValue, List.map_cons, List.flatten_cons, hfmt, hflat]
        simp

theorem hexString_trim_eq_self (s : List Char)
    (hhex : ∀ c ∈ s, isHexDigitChar c = true) : rustTrim s = s :=
  rustTrim_eq_self s
    (fun c hc => hexDigit_not_whitespace c (of_decide_eq_true (hhex c hc)))

/-! ## Claim theorems -/

/-- Claim C1: for every observed block, the block reporter first issues the
read-only `isBlockReported` query for the block's content hash and the
configured sender, before any state-changing call; when the query returns
true it issues zero state-changing calls, and when it returns false it
issues exactly one `reportBlock` call carrying the RLP-encoded block and
the fixed gas budget. -/
theorem claim_c1_block_reporter_idempotency (sender : List Nat) (block : Block)
    (queryResult : Except Unit Bool) :
    blockReporterReact sender block queryResult =
      ContractOp.unlockAccount (some 0) ::
      ContractOp.query "isBlockReported" block.contentHash sender ::
      (blockReporterReact sender block queryResult).filter ContractOp.isStateChangingCall ∧
    (queryResult = Except.ok true →
      (blockReporterReact sender block queryResult).filter ContractOp.isStateChangingCall
        = []) ∧
    (queryResult = Except.ok false →
      (blockReporterReact sender block queryResult).filter ContractOp.isStateChangingCall
        = [ContractOp.call "reportBlock" (rlpEncode block) sender
            REPORT_BLOCK_ESTIMATED_GAS]) := by
  refine ⟨?_, ?_, ?_⟩
  · match queryResult with
    | Except.ok true => simp [blockReporterReact, ContractOp.isStateChangingCall]
    | Except.ok false => simp [blockReporterReact, ContractOp.isStateChangingCall]
    | Except.error e => simp [blockReporterReact, ContractOp.isStateChangingCall]
  · intro h
    subst h
    simp [blockReporterReact, ContractOp.isStateChangingCall]
  · intro h
    subst h
    simp [blockReporterReact, ContractOp.isStateChangingCall]

theorem claim_c1_witness :
    (blockReporterReact sampleStoreAddress zeroBlock (Except.ok true)).filter
        ContractOp.isStateChangingCall = [] ∧
    (blockReporterReact sampleStoreAddress zeroBlock (Except.ok false)).filter
        ContractOp.isStateChangingCall =
      [ContractOp.call "reportBlock" (rlpEncode zeroBlock) sampleStoreAddress
        REPORT_BLOCK_ESTIMATED_GAS] :=
  ⟨(claim_c1_block_reporter_idempotency sampleStoreAddress zeroBlock
      (Except.ok true)).2.1 rfl,
   (claim_c1_block_reporter_idempotency sampleStoreAddress zeroBlock
      (Except.ok false)).2.2 rfl⟩

/-- Claim C5: on every finite prefix of a polled stream, the observer
worker resolves with `Ok(())` — never with an error — and hands exactly
the successfully streamed blocks, in order, to the block function: error
items are skipped and processing continues with the subsequent items,
regardless of whether the block function itself errors. -/
theorem claim_c5_worker_never_errors (block_stream : List (Except Error Block))
    (block_function : Block → Except Error Unit) :
    (worker block_stream block_function).2 = Except.ok () ∧
    (worker block_stream block_function).1 =
      block_stream.filterMap (fun item => item.toOption) := by
  induction block_stream with
  | nil => simp [worker]
  | cons item rest ih =>
    match item with
    | Except.error e =>
      simpa [worker, Except.toOption] using ih
    | Except.ok block =>
      cases hbf : block_function block with
      | ok u => simp [worker, hbf, Except.toOption, ih.1, ih.2]
      | error e => simp [worker, hbf, Except.toOption, ih.1, ih.2]

/-- Claim C6: the spec requires a hard error for block numbers beyond the
64-bit range, and `From<U128> for u64` in `basic_types.rs` indeed panics
on overflow; but `Ethereum::stream_blocks` in `src/ethereum/mod.rs` builds
its log filter with `low_u64`, which silently truncates the number
`2 ^ 64` to `0` instead of raising any error. -/
theorem claim_c6_low_u64_truncates :
    2 ^ 64 ≤ bigNumberBlock.number ∧
    streamBlocksLogFilterNumber bigNumberBlock = 0 ∧
    u64FromU128 bigNumberBlock.number = Outcome.panicked := by
  refine ⟨?_, ?_, ?_⟩ <;> decide

/-- Claim C7: the spec asserts that hex parsing never panics, including on
empty and single-character inputs; but both `Address::from_string` and
`Bytes::from_str` slice `&cleaned[..2]` before any length check, so both
panic on the empty string and on any single-character string instead of
returning a format error. -/
theorem claim_c7_parse_panics_on_short_input :
    addressFromString [] = ParseOutcome.panicked ∧
    addressFromString ['a'] = ParseOutcome.panicked ∧
    bytesFromStr [] = ParseOutcome.panicked ∧
    bytesFromStr ['5'] = ParseOutcome.panicked := by
  refine ⟨?_, ?_, ?_, ?_⟩ <;> decide

/-- Claim C2: `log_into_event` returns `Ok(None)` when the log's address
has no registered decoders, when the topic list is empty, or when the
first topic has no matching decoder; returns `Ok(Some(event))` when the
matched decoder parses a payload of at least one ABI word; and returns a
decode `Err` — never a panic — when the matched decoder finds fewer than
32 payload bytes. -/
theorem claim_c2_log_into_event_cases (r : EventRegistry) (log : Log) :
    (assocGet r.factories log.address = none →
      r.log_into_event log = Except.ok none) ∧
    (log.topics = [] → r.log_into_event log = Except.ok none) ∧
    (∀ m t0 ts, assocGet r.factories log.address = some m →
      log.topics = t0 :: ts → assocGet m t0 = none →
      r.log_into_event log = Except.ok none) ∧
    (∀ m t0 ts f, assocGet r.factories log.address = some m →
      log.topics = t0 :: ts → assocGet m t0 = some f → 32 ≤ log.data.length →
      r.log_into_event log = Except.ok (some (factoryEvent f (log.data.take 32)))) ∧
    (∀ m t0 ts f, assocGet r.factories log.address = some m →
      log.topics = t0 :: ts → assocGet m t0 = some f → log.data.length < 32 →
      ∃ e, r.log_into_event log = Except.error e) := by
  refine ⟨?_, ?_, ?_, ?_, ?_⟩
  · intro h
    simp [EventRegistry.log_into_event, h]
  · intro h
    unfold EventRegistry.log_into_event
    cases haddr : assocGet r.factories log.address <;> simp [h]
  · intro m t0 ts hm ht hn
    simp [EventRegistry.log_into_event, hm, ht, hn]
  · intro m t0 ts f hm ht hf hlen
    simp only [EventRegistry.log_into_event, hm, ht, hf]
    unfold factoryFromLog ethabiDecodeFixedBytes32
    rw [if_pos hlen]
    cases f <;> simp [block_hash_from_abi, factoryEvent, Except.map]
  · intro m t0 ts f hm ht hf hlen
    refine ⟨⟨ErrorKind.abiError⟩, ?_⟩
    simp only [EventRegistry.log_into_event, hm, ht, hf]
    unfold factoryFromLog ethabiDecodeFixedBytes32
    rw [if_neg (by omega)]
    simp [Except.map]

theorem claim_c2_witness :
    sampleRegistry.log_into_event unregisteredLog = Except.ok none ∧
    sampleRegistry.log_into_event sampleReportedLog =
      Except.ok (some (factoryEvent EventFactoryKind.blockReportedFactory
        (sampleReportedLog.data.take 32))) ∧
    (∃ e, sampleRegistry.log_into_event shortDataLog = Except.error e) :=
  ⟨(claim_c2_log_into_event_cases sampleRegistry unregisteredLog).1 (by decide),
   (claim_c2_log_into_event_cases sampleRegistry sampleReportedLog).2.2.2.1
     [(blockReportedTopic, EventFactoryKind.blockReportedFactory)] blockReportedTopic []
     EventFactoryKind.blockReportedFactory (by decide) rfl (by decide) (by decide),
   (claim_c2_log_into_event_cases sampleRegistry shortDataLog).2.2.2.2
     [(blockReportedTopic, EventFactoryKind.blockReportedFactory)] blockReportedTopic []
     EventFactoryKind.blockReportedFactory (by decide) rfl (by decide) (by decide)⟩

/-- Claim C10: the result of `log_into_event` depends only on the log's
address, its first topic (hence also on whether the topic list is empty),
and its data payload: two logs agreeing on those three projections receive
the same result, whatever their other fields contain. -/
theorem claim_c10_log_into_event_projection (r : EventRegistry) (l1 l2 : Log)
    (ha : l1.address = l2.address) (ht : l1.topics.head? = l2.topics.head?)
    (hd : l1.data = l2.data) :
    r.log_into_event l1 = r.log_into_event l2 := by
  have hfac : ∀ f, factoryFromLog f l1 = factoryFromLog f l2 := by
    intro f
    unfold factoryFromLog
    rw [hd]
  unfold EventRegistry.log_into_event
  rw [ha]
  cases haddr : assocGet r.factories l2.address with
  | none => rfl
  | some m =>
    rcases h1 : l1.topics with - | ⟨t0, ts⟩ <;> rcases h2 : l2.topics with - | ⟨t0h, tsh⟩
    · rfl
    · rw [h1, h2] at ht; simp at ht
    · rw [h1, h2] at ht; simp at ht
    · rw [h1, h2] at ht
      simp only [List.head?_cons, Option.some.injEq] at ht
      subst ht
      change (match assocGet m t0 with
          | some factory => Except.map some (factoryFromLog factory l1)
          | none => Except.ok none) =
        (match assocGet m t0 with
          | some factory => Except.map some (factoryFromLog factory l2)
          | none => Except.ok none)
      cases assocGet m t0 with
      | none => rfl
      | some f => exact congrArg (Except.map some) (hfac f)

theorem claim_c10_witness :
    sampleRegistry.log_into_event sampleReportedLog =
      sampleRegistry.log_into_event sampleReportedLogNoisy :=
  claim_c10_log_into_event_projection sampleRegistry sampleReportedLog
    sampleReportedLogNoisy (by decide) (by decide) (by decide)

/-- Claim C3 counterexample: registering a second decoder for the key
`(sampleStoreAddress, blockReportedTopic)` does not fail — registration
is total and cannot signal an error — and it silently replaces the
previously bound block-reported factory with the new one. -/
theorem claim_c3_counterexample :
    (sampleRegistry.register_event_factory sampleStoreAddress blockReportedTopic
        EventFactoryKind.blockFinalizedFactory).lookupFactory sampleStoreAddress
        blockReportedTopic = some EventFactoryKind.blockFinalizedFactory ∧
    sampleRegistry.lookupFactory sampleStoreAddress blockReportedTopic =
      some EventFactoryKind.blockReportedFactory := by
  refine ⟨?_, ?_⟩ <;> decide

/-- Claim C3 amended: `register_event_factory` always succeeds; registering
a decoder for an `(address, topic)` key that already has one silently
replaces the existing decoder (`HashMap::insert` semantics) — the last
registration wins and no configuration error is raised. -/
theorem claim_c3_amended_last_registration_wins (r : EventRegistry)
    (address topic : List Nat) (factory : EventFactoryKind) :
    (r.register_event_factory address topic factory).lookupFactory address topic
      = some factory := by
  unfold EventRegistry.register_event_factory EventRegistry.lookupFactory
  simp only [assocGet_assocInsert_self]

/-- Claim C4 counterexample: `rlp_append` does append the chain-assigned
`hash` field, so two concrete blocks that differ only in their own hash
field have different canonical encodings, contradicting the claimed
exclusion. -/
theorem claim_c4_counterexample :
    zeroBlock.parent_hash = hashTweakedBlock.parent_hash ∧
    zeroBlock.uncles_hash = hashTweakedBlock.uncles_hash ∧
    zeroBlock.author = hashTweakedBlock.author ∧
    zeroBlock.state_root = hashTweakedBlock.state_root ∧
    zeroBlock.transactions_root = hashTweakedBlock.transactions_root ∧
    zeroBlock.receipts_root = hashTweakedBlock.receipts_root ∧
    zeroBlock.logs_bloom = hashTweakedBlock.logs_bloom ∧
    zeroBlock.total_difficulty = hashTweakedBlock.total_difficulty ∧
    zeroBlock.number = hashTweakedBlock.number ∧
    zeroBlock.gas_limit = hashTweakedBlock.gas_limit ∧
    zeroBlock.gas_used = hashTweakedBlock.gas_used ∧
    zeroBlock.timestamp = hashTweakedBlock.timestamp ∧
    zeroBlock.extra_data = hashTweakedBlock.extra_data ∧
    zeroBlock.mix_data = hashTweakedBlock.mix_data ∧
    zeroBlock.nonce = hashTweakedBlock.nonce ∧
    zeroBlock.events = hashTweakedBlock.events ∧
    zeroBlock.hash ≠ hashTweakedBlock.hash ∧
    rlpEncode zeroBlock ≠ rlpEncode hashTweakedBlock := by
  decide

/-- Claim C4 amended: the canonical encoding is computed over the block's
header fields including the chain-assigned hash (and excluding
`extra_data` and the event list): for well-formed blocks that agree on the
other fourteen encoded fields, the encodings coincide exactly when the
hash fields coincide, so blocks differing only in their own hash have
different canonical encodings. -/
theorem claim_c4_amended_hash_included (b1 b2 : Block) (hw1 : b1.Wf) (hw2 : b2.Wf)
    (h : b1.parent_hash = b2.parent_hash ∧ b1.uncles_hash = b2.uncles_hash ∧
      b1.author = b2.author ∧ b1.state_root = b2.state_root ∧
      b1.transactions_root = b2.transactions_root ∧
      b1.receipts_root = b2.receipts_root ∧ b1.logs_bloom = b2.logs_bloom ∧
      b1.total_difficulty = b2.total_difficulty ∧ b1.number = b2.number ∧
      b1.gas_limit = b2.gas_limit ∧ b1.gas_used = b2.gas_used ∧
      b1.timestamp = b2.timestamp ∧ b1.mix_data = b2.mix_data ∧
      b1.nonce = b2.nonce) :
    rlpEncode b1 = rlpEncode b2 ↔ b1.hash = b2.hash := by
  obtain ⟨e1, e2, e3, e4, e5, e6, e7, e8, e9, e10, e11, e12, e13, e14⟩ := h
  constructor
  · intro henc
    exact (rlpEncode_inj b1 b2 hw1 hw2 henc).2.2.2.2.2.2.2.2.2.2.2.2.1
  · intro hh
    exact rlpEncode_congr b1 b2
      ⟨e1, e2, e3, e4, e5, e6, e7, e8, e9, e10, e11, e12, hh, e13, e14⟩

theorem claim_c4_witness :
    (rlpEncode zeroBlock = rlpEncode hashTweakedBlock ↔
      zeroBlock.hash = hashTweakedBlock.hash) :=
  claim_c4_amended_hash_included zeroBlock hashTweakedBlock (by decide) (by decide)
    (by decide)

/-- Claim C9 counterexample: the `extra_data` header field is omitted from
`rlp_append`, so two concrete blocks that differ only in `extra_data` have
the same content hash, contradicting the claim that changing any single
header field changes the hash. -/
theorem claim_c9_counterexample :
    zeroBlock.extra_data ≠ extraTweakedBlock.extra_data ∧
    EncFieldsEq zeroBlock extraTweakedBlock ∧
    zeroBlock.events = extraTweakedBlock.events ∧
    Block.contentHash zeroBlock = Block.contentHash extraTweakedBlock := by
  have hdiff : zeroBlock.extra_data ≠ extraTweakedBlock.extra_data := by decide
  have hsame : EncFieldsEq zeroBlock extraTweakedBlock := by decide
  have hev : zeroBlock.events = extraTweakedBlock.events := by decide
  have henc : rlpEncode zeroBlock = rlpEncode extraTweakedBlock := by decide
  exact ⟨hdiff, hsame, hev, congrArg keccak256 henc⟩

/-- Claim C9 amended: `content_hash` is the Keccak-256 digest of
`encode(block)`, and the domain of `encode` comprises exactly the fifteen
appended header fields: blocks agreeing on those fields share a content
hash whatever their `extra_data` and event list, and for well-formed
blocks, equality of the encodings forces equality of all fifteen encoded
fields — changing any one of them changes the encoding. -/
theorem claim_c9_amended_hash_domain (b1 b2 : Block) (hw1 : b1.Wf) (hw2 : b2.Wf) :
    Block.contentHash b1 = keccak256 (rlpEncode b1) ∧
    (EncFieldsEq b1 b2 → Block.contentHash b1 = Block.contentHash b2) ∧
    (rlpEncode b1 = rlpEncode b2 → EncFieldsEq b1 b2) :=
  ⟨rfl,
   fun h => congrArg keccak256 (rlpEncode_congr b1 b2 h),
   rlpEncode_inj b1 b2 hw1 hw2⟩

theorem claim_c9_witness :
    Block.contentHash zeroBlock = keccak256 (rlpEncode zeroBlock) ∧
    Block.contentHash zeroBlock = Block.contentHash zeroBlock :=
  ⟨(claim_c9_amended_hash_domain zeroBlock zeroBlock (by decide) (by decide)).1,
   (claim_c9_amended_hash_domain zeroBlock zeroBlock (by decide) (by decide)).2.1
     (by decide)⟩

/-- Claim C8: every 40-hex-digit string, in either letter case and with or
without a leading `0x`, parses successfully, and formatting the parsed
address as lower hex yields the lowercase form of the input digits without
prefix. -/
theorem claim_c8_round_trip (s : List Char) (hlen : s.length = 40)
    (hhex : ∀ c ∈ s, isHexDigitChar c = true) :
    ∃ bytes, addressFromString s = ParseOutcome.ok bytes ∧
      addressFromString ('0' :: 'x' :: s) = ParseOutcome.ok bytes ∧
      addressToLowerHex bytes = s.map charToLower := by
  have htrim := hexString_trim_eq_self s hhex
  have hloop := hexPairLoop_ok BlockchainErrorKind.invalidAddress 19 s (by omega) hhex
  have hs2 : s.take 2 ≠ ['0', 'x'] := by
    match s with
    | [] => simp at hlen
    | [c] => simp at hlen
    | c1 :: c2 :: rest =>
      intro hcontra
      simp only [List.take_succ_cons, List.take_zero, List.cons.injEq] at hcontra
      have hx : isHexDigitChar c2 = true := hhex c2 (by simp)
      rw [hcontra.2.1] at hx
      exact absurd hx (by decide)
  refine ⟨hexPairsValue s, ?_, ?_, ?_⟩
  · simp only [addressFromString]
    rw [htrim, if_neg (show ¬ s.length < 2 by omega), if_neg hs2,
      if_neg (show ¬ s.length ≠ 40 by omega)]
    exact hloop.1
  · have htrim2 : rustTrim ('0' :: 'x' :: s) = '0' :: 'x' :: s := by
      apply rustTrim_eq_self
      intro c hc
      simp only [List.mem_cons] at hc
      rcases hc with rfl | rfl | hc
      · decide
      · decide
      · exact hexDigit_not_whitespace c (of_decide_eq_true (hhex c hc))
    simp only [addressFromString]
    rw [htrim2, if_neg (show ¬ ('0' :: 'x' :: s).length < 2 by simp),
      if_pos (show ('0' :: 'x' :: s).take 2 = ['0', 'x'] from rfl)]
    simp only [List.drop_succ_cons, List.drop_zero]
    rw [if_neg (show ¬ s.length ≠ 40 by omega)]
    exact hloop.1
  · exact hloop.2

theorem claim_c8_witness :
    ∃ bytes, addressFromString sampleHexChars = ParseOutcome.ok bytes ∧
      addressFromString ('0' :: 'x' :: sampleHexChars) = ParseOutcome.ok bytes ∧
      addressToLowerHex bytes = sampleHexChars.map charToLower :=
  claim_c8_round_trip sampleHexChars (by decide) (by decide)

end Mosaic
